import Mathlib

/-!
Verification development for the battery-temperature baseline pipeline
(`baselineV2.ipynb`): a tabular multi-target regression pipeline that
engineers calendar features from a timestamp column, splits the training
table into train/validation partitions, and trains one LightGBM regressor
per target label.

The in-repository code (the `time_feature` function, the hyperparameter
dictionary, and the per-label training loop) is embedded directly.  The
external library calls (`sklearn.model_selection.train_test_split`,
`lightgbm.train` / `Booster.predict`, `pandas.to_datetime` internals) are
modelled from the specification, since their sources are not part of the
repository.
-/

/-! ## Timestamps and pandas-style calendar accessors

A timestamp is a calendar instant: a (possibly negative) count of whole
days since 1970-01-01 plus an hour and minute of day.  The `dt.*`
accessors of pandas are reconstructed from this representation with the
standard civil-calendar algorithms. -/

structure Timestamp where
  days : Int
  hour : Nat
  minute : Nat
deriving DecidableEq, Repr

/-- Convert a count of days since 1970-01-01 into a civil (year, month, day)
triple, proleptic Gregorian calendar.  `/` on `Int` is Euclidean division,
which floors for the positive divisors used here. -/
def civilFromDays (z0 : Int) : Int × Nat × Nat :=
  let z := z0 + 719468
  let era : Int := z / 146097
  let doe : Nat := (z - era * 146097).toNat
  let yoe : Nat := (doe - doe / 1460 + doe / 36524 - doe / 146096) / 365
  let y : Int := (yoe : Int) + era * 400
  let doy : Nat := doe - (365 * yoe + yoe / 4 - yoe / 100)
  let mp : Nat := (5 * doy + 2) / 153
  let d : Nat := doy - (153 * mp + 2) / 5 + 1
  let m : Nat := if mp < 10 then mp + 3 else mp - 9
  (if m ≤ 2 then y + 1 else y, m, d)

def Timestamp.year (t : Timestamp) : Int := (civilFromDays t.days).1

/-- pandas `dt.month` (1-12). -/
def Timestamp.month (t : Timestamp) : Nat := (civilFromDays t.days).2.1

/-- pandas `dt.day` (1-31). -/
def Timestamp.day (t : Timestamp) : Nat := (civilFromDays t.days).2.2

def isLeapYear (y : Int) : Bool := y % 4 == 0 && (y % 100 != 0 || y % 400 == 0)

/-- Days in the months strictly before month `m` (1-12) of a year. -/
def daysBeforeMonth (leap : Bool) (m : Nat) : Nat :=
  [0, 31, 59, 90, 120, 151, 181, 212, 243, 273, 304, 334].getD (m - 1) 0
    + (if leap && 2 < m then 1 else 0)

/-- pandas `dt.dayofyear` (1-366). -/
def Timestamp.dayofyear (t : Timestamp) : Nat :=
  daysBeforeMonth (isLeapYear t.year) t.month + t.day

/-- pandas `dt.dayofweek`: 0 = Monday .. 6 = Sunday.  1970-01-01 was a
Thursday (weekday 3); `%` on `Int` is the Euclidean remainder, so the
result lies in `[0, 6]` for every instant, past or future. -/
def Timestamp.dayofweek (t : Timestamp) : Nat := ((t.days + 3) % 7).toNat

/-- Number of ISO weeks (52 or 53) in a given year. -/
def isoWeeksInYear (y : Int) : Nat :=
  let p : Int → Int := fun yy => (yy + yy / 4 - yy / 100 + yy / 400) % 7
  if p y == 4 || p (y - 1) == 3 then 53 else 52

/-- pandas `dt.isocalendar().week` (1-53). -/
def Timestamp.weekofyear (t : Timestamp) : Nat :=
  let w : Int := (10 + (t.dayofyear : Int) - ((t.dayofweek : Int) + 1)) / 7
  if w < 1 then isoWeeksInYear (t.year - 1)
  else if (isoWeeksInYear t.year : Int) < w then 1
  else w.toNat

/-- The weekend flag computed by the source: `dayofweek // 6`
(integer division), source line
`data["is_weekend"] = data["时间"].dt.dayofweek // 6`. -/
def Timestamp.is_weekend (t : Timestamp) : Nat := t.dayofweek / 6

/-! ## Tabular values and data frames -/

inductive Value where
  | str : String → Value
  | num : Int → Value
  | time : Timestamp → Value
deriving DecidableEq, Repr

/-- A pandas-style data frame: an ordered association of column names to
column value sequences.  Well-formedness (all columns sharing one row
count) is tracked by the predicate `DataFrame.WF`. -/
structure DataFrame where
  cols : List (String × List Value)
deriving DecidableEq, Repr

/-- Every column holds exactly `n` values. -/
def DataFrame.WF (df : DataFrame) (n : Nat) : Prop :=
  ∀ c ∈ df.cols, c.2.length = n

instance (df : DataFrame) (n : Nat) : Decidable (df.WF n) :=
  inferInstanceAs (Decidable (∀ c ∈ df.cols, c.2.length = n))

def DataFrame.names (df : DataFrame) : List String := df.cols.map Prod.fst

def DataFrame.ncols (df : DataFrame) : Nat := df.cols.length

def DataFrame.hasCol (df : DataFrame) (name : String) : Bool :=
  df.cols.any (fun c => c.1 == name)

/-- Column read `df[name]`: one column's values; `none` models the
`KeyError` pandas raises on a missing column. -/
def DataFrame.getCol (df : DataFrame) (name : String) : Option (List Value) :=
  (df.cols.find? (fun c => c.1 == name)).map Prod.snd

/-- Column assignment `df[name] = vs`: overwrite the column in place when
present, else append it as the last column (pandas semantics). -/
def DataFrame.setCol (df : DataFrame) (name : String) (vs : List Value) : DataFrame :=
  if df.hasCol name then
    ⟨df.cols.map (fun c => if c.1 == name then (name, vs) else c)⟩
  else ⟨df.cols ++ [(name, vs)]⟩

/-- Errors of the embedded pipeline fragments. -/
inductive TFError where
  | columnNotFoundError (name : String)
  | timestampParseError
deriving DecidableEq, Repr

/-- Column drop `df.drop(columns=names)`: fails with a column-not-found
error when any requested name is absent (pandas `KeyError`), else removes
those columns. -/
def DataFrame.dropCols (df : DataFrame) (names : List String) :
    Except TFError DataFrame :=
  match names.find? (fun n => !(df.hasCol n)) with
  | some n => .error (.columnNotFoundError n)
  | none => .ok ⟨df.cols.filter (fun c => !(names.contains c.1))⟩

/-! ## The time-feature extractor (`time_feature` of the source)

`pd.to_datetime` is an external library call; its contract — parse every
value, raising on the first unparseable one, never dropping a row — is
represented by mapping an arbitrary parsing function `parse` over the
timestamp column and failing the whole call on the first `none`. -/

def parseAll (parse : Value → Option Timestamp) :
    List Value → Except TFError (List Timestamp)
  | [] => .ok []
  | v :: vs =>
    match parse v with
    | none => .error .timestampParseError
    | some t =>
      match parseAll parse vs with
      | .error e => .error e
      | .ok ts => .ok (t :: ts)

/-- The eight derived calendar feature columns, in source order. -/
def derivedNames : List String :=
  ["month", "day", "hour", "minute", "weekofyear", "dayofyear", "dayofweek",
   "is_weekend"]

/-- Sequence of column assignments, applied left to right. -/
def setCols (d : DataFrame) : List (String × List Value) → DataFrame
  | [] => d
  | (m, vs) :: rest => setCols (d.setCol m vs) rest

/-- The eight derived feature columns of the source, in source order, as
(name, values) pairs computed from the parsed timestamps. -/
def derivedCols (ts : List Timestamp) : List (String × List Value) :=
  [("month", ts.map fun t => Value.num t.month),
   ("day", ts.map fun t => Value.num t.day),
   ("hour", ts.map fun t => Value.num t.hour),
   ("minute", ts.map fun t => Value.num t.minute),
   ("weekofyear", ts.map fun t => Value.num t.weekofyear),
   ("dayofyear", ts.map fun t => Value.num t.dayofyear),
   ("dayofweek", ts.map fun t => Value.num t.dayofweek),
   ("is_weekend", ts.map fun t => Value.num t.is_weekend)]

/-- The block of nine column assignments of the source: the overwrite of
`时间` with its parsed values, then the eight `data["name"] = ...` lines,
in source order. -/
def addTimeFeatures (d : DataFrame) (ts : List Timestamp) : DataFrame :=
  setCols (d.setCol "时间" (ts.map Value.time)) (derivedCols ts)

/-- The label-independent prefix of the source's `time_feature`: copy,
drop `序号`, parse `时间`, append the eight calendar features, drop
`时间`. -/
def time_feature_core (parse : Value → Option Timestamp) (data : DataFrame) :
    Except TFError DataFrame :=
  match data.dropCols ["序号"] with
  | .error e => .error e
  | .ok d1 =>
    match d1.getCol "时间" with
    | none => .error (.columnNotFoundError "时间")
    | some tvals =>
      match parseAll parse tvals with
      | .error e => .error e
      | .ok ts => (addTimeFeatures d1 ts).dropCols ["时间"]

/-- Embedding of the source's `time_feature(data, pred_labels=None)`: the
label-independent prefix, then — only when `pred_labels` is truthy (given
and non-empty) — drop the label columns. -/
def time_feature (parse : Value → Option Timestamp) (data : DataFrame)
    (pred_labels : Option (List String) := none) : Except TFError DataFrame :=
  match time_feature_core parse data with
  | .error e => .error e
  | .ok d11 =>
    match pred_labels with
    | none => .ok d11
    | some ls => if ls.isEmpty then .ok d11 else d11.dropCols ls

/-! ## The train/validation splitter

`sklearn.model_selection.train_test_split` is an external library whose
source is not part of this repository; the splitter is therefore modelled
from the specification (§4.3). -/

/-- A 64-bit linear congruential step, driving the seeded permutation. -/
def lcgStep (s : Nat) : Nat :=
  (6364136223846793005 * s + 1442695040888963407) % (2 ^ 64)

/-- Seeded Fisher-Yates walk: repeatedly pick the position `s % length`,
move that element to the front of the output, and recurse on the rest with
the stepped seed.  `fuel` bounds the recursion; it is set to the list
length at the entry point. -/
def shuffleGo {α : Type} : Nat → Nat → List α → List α
  | 0, _, xs => xs
  | _ + 1, _, [] => []
  | fuel + 1, s, x :: xs =>
    let i := s % (x :: xs).length
    (x :: xs).getD i x :: shuffleGo fuel (lcgStep s) ((x :: xs).eraseIdx i)

/-- A seed-determined permutation of the rows. -/
def shuffle {α : Type} (seed : Nat) (xs : List α) : List α :=
  shuffleGo xs.length seed xs

inductive SplitError where
  | invalidArgumentError
deriving DecidableEq, Repr

/-- Modelled from the spec: `split(data, holdoutFraction, seed)` of §4.3
stands for the notebook's `train_test_split(train_dataset, test_size=0.2)`,
whose implementation lives in scikit-learn, outside this repository.  Per
the spec it performs a uniform random row permutation, then partitions at
`round(rowCount * holdoutFraction)` rows into validation and the remainder
into training; a holdout fraction outside (0,1) fails with
`InvalidArgumentError`. -/
def split {α : Type} (data : List α) (holdoutFraction : ℚ) (seed : Nat) :
    Except SplitError (List α × List α) :=
  if 0 < holdoutFraction ∧ holdoutFraction < 1 then
    let perm := shuffle seed data
    let nValid := (round ((data.length : ℚ) * holdoutFraction)).toNat
    .ok (perm.drop nValid, perm.take nValid)
  else .error .invalidArgumentError

/-! ## LightGBM hyperparameters (`lgb_params` of the source) -/

structure LgbParams where
  boosting_type : String
  objective : String
  metric : String
  min_child_weight : Nat
  num_leaves : Nat
  lambda_l2 : Nat
  feature_fraction : ℚ
  bagging_fraction : ℚ
  bagging_freq : Nat
  learning_rate : ℚ
  seed : Nat
  nthread : Nat
  verbose : Int
deriving DecidableEq, Repr

/-- The `lgb_params` dictionary of the V2 notebook variant (learning rate
0.03). -/
def lgb_paramsV2 : LgbParams :=
  { boosting_type := "gbdt"
    objective := "regression"
    metric := "mae"
    min_child_weight := 5
    num_leaves := 2 ^ 5
    lambda_l2 := 10
    feature_fraction := 0.8
    bagging_fraction := 0.8
    bagging_freq := 4
    learning_rate := 0.03
    seed := 2023
    nthread := 16
    verbose := -1 }

/-- The `lgb_params` dictionary of the V1 notebook variant; it differs from
V2 only in the learning rate (0.05). -/
def lgb_paramsV1 : LgbParams :=
  { lgb_paramsV2 with learning_rate := 0.05 }

/-! ## The per-label trainer

`lightgbm.train` and `Booster.predict` are external library calls; the
ensemble a training run would build is abstracted as a family
`boost : Nat → List ℚ → ℚ`, the prediction function of the ensemble after
a given number of boosting rounds.  What the repository's code fixes — the
round ceiling of 200, the selection of the best iteration by validation
MAE, and the use of that same iteration in both prediction calls — is
embedded explicitly. -/

/-- Mean of absolute differences, `sklearn.metrics.mean_absolute_error`. -/
def mae (preds labels : List ℚ) : ℚ :=
  (List.zipWith (fun a b => |a - b|) preds labels).sum / preds.length

/-- First-minimum scan: returns the candidate from `ks` (or the initial
value) whose `f`-value is smallest, keeping the earlier one on ties. -/
def bestIterGo (f : Nat → ℚ) : List Nat → Nat → Nat
  | [], best => best
  | k :: ks, best => bestIterGo f ks (if f k < f best then k else best)

/-- The boosting round in `[1, numRounds]` with the lowest validation
metric, earliest on ties. -/
def bestIter (f : Nat → ℚ) (numRounds : Nat) : Nat :=
  bestIterGo f ((List.range numRounds).map (fun i => i + 1)) 1

structure Booster where
  boost : Nat → List ℚ → ℚ
  best_iteration : Nat

/-- Modelled from the spec: `lgb.train(params, train_data, numRounds,
valid_sets=valid_data, ...)` trains a ceiling of `numRounds` boosting
rounds and records as `best_iteration` the round with the lowest
validation MAE seen during training.  The tree-building itself is the
abstracted `boost` family; `params` and the training pair are carried to
mirror the call shape. -/
def lgb_train (boost : Nat → List ℚ → ℚ) (_params : LgbParams)
    (_train_data : List (List ℚ) × List ℚ) (numRounds : Nat)
    (validFeatures : List (List ℚ)) (validLabels : List ℚ) : Booster :=
  { boost := boost
    best_iteration :=
      bestIter (fun k => mae (validFeatures.map (boost k)) validLabels) numRounds }

/-- Prediction call `model.predict(features, num_iteration=k)`: evaluate
the `k`-round ensemble on each feature row. -/
def Booster.predict (m : Booster) (features : List (List ℚ))
    (num_iteration : Nat) : List ℚ :=
  features.map (m.boost num_iteration)

/-- The training/prediction block of the source's per-label loop body:
train with a fixed ceiling of 200 rounds, then predict on the validation
and test features with `num_iteration = model.best_iteration` in both
calls.  Returns `(valid_pred, test_pred, best_iteration)`. -/
def trainAndPredict (boost : Nat → List ℚ → ℚ) (params : LgbParams)
    (train_data : List (List ℚ) × List ℚ)
    (validFeatures : List (List ℚ)) (validLabels : List ℚ)
    (testFeatures : List (List ℚ)) : List ℚ × List ℚ × Nat :=
  let model := lgb_train boost params train_data 200 validFeatures validLabels
  let valid_pred := model.predict validFeatures model.best_iteration
  let test_pred := model.predict testFeatures model.best_iteration
  (valid_pred, test_pred, model.best_iteration)

/-! ## The pipeline loop -/

/-- Number of rows of a well-formed frame (length of its first column). -/
def DataFrame.nrows (df : DataFrame) : Nat :=
  (df.cols.head?.map (fun c => c.2.length)).getD 0

/-- Numeric view of row `i`, reading each column through a valuation `ν`
(the numeric interpretation of cell values is LightGBM-internal). -/
def DataFrame.toRows (df : DataFrame) (ν : Value → ℚ) : List (List ℚ) :=
  (List.range df.nrows).map
    (fun i => df.cols.map (fun c => ν (c.2.getD i (Value.num 0))))

/-- Label column `df[lab]` as a numeric sequence. -/
def labelColumn (df : DataFrame) (ν : Value → ℚ) (lab : String) : List ℚ :=
  ((df.getCol lab).getD []).map ν

/-- The mutable state the source threads through the per-label loop:
the two split partitions, the submission accumulator, and the score map. -/
structure PipelineState where
  train_set : DataFrame
  valid_set : DataFrame
  submit : List (String × List ℚ)
  MAE_scores : List (String × ℚ)

/-- Record of what one label iteration consumed. -/
structure LabelRun where
  label : String
  used_train : DataFrame
  used_valid : DataFrame

/-- One iteration of the source's `for pred_label in pred_labels` loop:
re-extract time features from the two partitions, build the label columns,
train and predict through `trainAndPredict`, and append to the score map
and the submission table.  A failing `time_feature` call is propagated,
as the source's uncaught exception aborts the run. -/
def labelStep (parse : Value → Option Timestamp) (ν : Value → ℚ)
    (boostFam : String → Nat → List ℚ → ℚ) (pred_labels : List String)
    (test_features : List (List ℚ)) (st : PipelineState) (pred_label : String) :
    Except TFError (PipelineState × LabelRun) :=
  match time_feature parse st.train_set (some pred_labels) with
  | .error e => .error e
  | .ok train_features =>
    match time_feature parse st.valid_set (some pred_labels) with
    | .error e => .error e
    | .ok valid_features =>
      let train_labels := labelColumn st.train_set ν pred_label
      let valid_labels := labelColumn st.valid_set ν pred_label
      let res := trainAndPredict (boostFam pred_label) lgb_paramsV2
        (train_features.toRows ν, train_labels) (valid_features.toRows ν)
        valid_labels test_features
      let MAE_score := mae res.1 valid_labels
      .ok ({ st with
              MAE_scores := st.MAE_scores ++ [(pred_label, MAE_score)]
              submit := st.submit ++ [(pred_label, res.2.1)] },
           { label := pred_label
             used_train := st.train_set
             used_valid := st.valid_set })

/-- The per-label loop: fold `labelStep` over the label list, collecting
the per-iteration records; the first failing iteration aborts the whole
loop, as in the source. -/
def runLoop (parse : Value → Option Timestamp) (ν : Value → ℚ)
    (boostFam : String → Nat → List ℚ → ℚ) (pred_labels : List String)
    (test_features : List (List ℚ)) (st : PipelineState) :
    List String → Except TFError (PipelineState × List LabelRun)
  | [] => .ok (st, [])
  | lab :: labs =>
    match labelStep parse ν boostFam pred_labels test_features st lab with
    | .error e => .error e
    | .ok (st1, r) =>
      match runLoop parse ν boostFam pred_labels test_features st1 labs with
      | .error e => .error e
      | .ok (st2, rs) => .ok (st2, r :: rs)

/-- Failure of either pipeline stage. -/
inductive PipelineError where
  | splitError (e : SplitError)
  | featureError (e : TFError)
deriving DecidableEq, Repr

/-- The pipeline: split the raw training rows exactly once (holdout
fraction 0.2), build the two partition frames, then run the per-label
loop; any stage failure aborts the run with no result.  `mkFrame`
abstracts the construction of a sub-DataFrame from a row subset. -/
def runPipeline {α : Type} (mkFrame : List α → DataFrame)
    (parse : Value → Option Timestamp) (ν : Value → ℚ)
    (boostFam : String → Nat → List ℚ → ℚ)
    (train_dataset : List α) (test_features : List (List ℚ))
    (pred_labels : List String) (seed : Nat) :
    Except PipelineError (PipelineState × List LabelRun) :=
  match split train_dataset (1/5) seed with
  | .error e => .error (.splitError e)
  | .ok (train_rows, valid_rows) =>
    match runLoop parse ν boostFam pred_labels test_features
      { train_set := mkFrame train_rows
        valid_set := mkFrame valid_rows
        submit := []
        MAE_scores := [] } pred_labels with
    | .error e => .error (.featureError e)
    | .ok p => .ok p

/-! ## Concrete fixtures used to exercise the theorems below -/

/-- A parsing function that fails exactly on the cell `"bad"`. -/
def parseW : Value → Option Timestamp
  | .str "bad" => none
  | _ => some ⟨2, 0, 0⟩

/-- A four-column, two-row frame shaped like the raw training table:
identifier, timestamp, one feature, one label. -/
def dfW : DataFrame :=
  ⟨[("序号", [.num 1, .num 2]),
    ("时间", [.str "t1", .str "t2"]),
    ("f1", [.num 10, .num 20]),
    ("lab", [.num 7, .num 8])]⟩

/-- Like `dfW` but with an unparseable timestamp in the second row. -/
def dfBad : DataFrame :=
  ⟨[("序号", [.num 1, .num 2]),
    ("时间", [.str "t1", .str "bad"]),
    ("f1", [.num 10, .num 20]),
    ("lab", [.num 7, .num 8])]⟩

/-- A trivial abstracted ensemble family: the `k`-round ensemble predicts
the constant `k`. -/
def boostW : Nat → List ℚ → ℚ := fun k _ => (k : ℚ)

/-- Row-to-frame builder for the pipeline fixture: a row is a cell list
read as identifier, timestamp, label. -/
def mkFrameW (rws : List (List Value)) : DataFrame :=
  ⟨[("序号", rws.map (fun r => r.getD 0 (Value.num 0))),
    ("时间", rws.map (fun r => r.getD 1 (Value.num 0))),
    ("lab", rws.map (fun r => r.getD 2 (Value.num 0)))]⟩

/-- A constant numeric valuation for the pipeline fixture. -/
def νW : Value → ℚ := fun _ => 0

/-- A per-label constant-zero ensemble family for the pipeline fixture. -/
def boostFamW : String → Nat → List ℚ → ℚ := fun _ _ _ => 0

/-- Two raw training rows with parseable timestamps. -/
def rowsW : List (List Value) :=
  [[.num 1, .str "t", .num 5], [.num 2, .str "u", .num 6]]

/-- A one-row test feature table for the pipeline fixture. -/
def testFW : List (List ℚ) := [[0]]

/-- Default pipeline result used only to project a known-successful run. -/
def dW : PipelineState × List LabelRun :=
  ({ train_set := ⟨[]⟩, valid_set := ⟨[]⟩, submit := [], MAE_scores := [] }, [])

example : Timestamp.dayofweek ⟨0, 0, 0⟩ = 3 := by decide
example : Timestamp.dayofweek ⟨2, 0, 0⟩ = 5 := by decide
example : civilFromDays 0 = (1970, 1, 1) := by decide
example : civilFromDays 19681 = (2023, 11, 20) := by decide
example : civilFromDays (-1) = (1969, 12, 31) := by decide
example : Timestamp.weekofyear ⟨19681, 0, 0⟩ = 47 := by decide
example : Timestamp.dayofyear ⟨19681, 0, 0⟩ = 324 := by decide

/-! ## Helper lemmas: lists and frames -/

theorem find?_filter_eq {α : Type} (p q : α → Bool)
    (h : ∀ x, p x = true → q x = true) :
    ∀ l : List α, (l.filter q).find? p = l.find? p := by
  intro l
  induction l with
  | nil => rfl
  | cons x l ih =>
    by_cases hp : p x = true
    · rw [List.filter_cons_of_pos (h x hp), List.find?_cons_of_pos _ hp,
        List.find?_cons_of_pos _ hp]
    · cases hq : q x with
      | false => rw [List.filter_cons_of_neg (by simp [hq]), ih,
          List.find?_cons_of_neg _ hp]
      | true => rw [List.filter_cons_of_pos hq, List.find?_cons_of_neg _ hp,
          List.find?_cons_of_neg _ hp, ih]

theorem map_fst_filter {β : Type} (p : String → Bool) :
    ∀ l : List (String × β),
      (l.filter (fun c => p c.1)).map Prod.fst = (l.map Prod.fst).filter p := by
  intro l
  induction l with
  | nil => rfl
  | cons c l ih => cases hp : p c.1 <;> simp [List.filter_cons, hp, ih]

theorem hasCol_iff_mem (df : DataFrame) (m : String) :
    df.hasCol m = true ↔ m ∈ df.names := by
  unfold DataFrame.hasCol DataFrame.names
  simp [List.any_eq_true, List.mem_map, beq_iff_eq]

theorem dropCols_ok_cols {df d : DataFrame} {ns : List String}
    (h : df.dropCols ns = .ok d) :
    d.cols = df.cols.filter (fun c => !(ns.contains c.1)) := by
  unfold DataFrame.dropCols at h
  cases hf : ns.find? (fun n => !(df.hasCol n)) with
  | some n => rw [hf] at h; cases h
  | none => rw [hf] at h; cases h; rfl

theorem dropCols_ok_names {df d : DataFrame} {ns : List String}
    (h : df.dropCols ns = .ok d) :
    d.names = df.names.filter (fun m => !(ns.contains m)) := by
  have hc := dropCols_ok_cols h
  unfold DataFrame.names
  rw [hc, map_fst_filter (fun m => !(ns.contains m)) df.cols]

theorem dropCols_WF {df d : DataFrame} {ns : List String} {n : Nat}
    (hwf : df.WF n) (h : df.dropCols ns = .ok d) : d.WF n := by
  intro c hc
  rw [dropCols_ok_cols h] at hc
  exact hwf c (List.mem_of_mem_filter hc)

theorem setCol_names (df : DataFrame) (m : String) (vs : List Value) :
    (df.setCol m vs).names =
      if df.hasCol m then df.names else df.names ++ [m] := by
  unfold DataFrame.setCol
  by_cases h : df.hasCol m
  · rw [if_pos h, if_pos h]
    show (df.cols.map _).map Prod.fst = df.names
    rw [List.map_map]
    refine List.map_congr_left (fun c _ => ?_)
    by_cases hc : c.1 = m
    · simp [Function.comp_apply, hc]
    · simp [Function.comp_apply, hc]
  · rw [if_neg h, if_neg h]
    show (df.cols ++ [(m, vs)]).map Prod.fst = df.names ++ [m]
    unfold DataFrame.names
    rw [List.map_append]
    rfl

theorem setCol_names_mem {df : DataFrame} {m : String} (h : m ∈ df.names)
    (vs : List Value) : (df.setCol m vs).names = df.names := by
  rw [setCol_names, if_pos ((hasCol_iff_mem df m).mpr h)]

theorem setCol_names_not_mem {df : DataFrame} {m : String} (h : m ∉ df.names)
    (vs : List Value) : (df.setCol m vs).names = df.names ++ [m] := by
  rw [setCol_names, if_neg]
  intro hc
  exact h ((hasCol_iff_mem df m).mp (by simpa using hc))

theorem setCol_WF {df : DataFrame} {n : Nat} (m : String) {vs : List Value}
    (hwf : df.WF n) (hvs : vs.length = n) : (df.setCol m vs).WF n := by
  unfold DataFrame.setCol
  by_cases h : df.hasCol m
  · rw [if_pos h]
    intro c hc
    rcases List.mem_map.mp hc with ⟨c0, hc0, hce⟩
    by_cases hbe : c0.1 = m
    · simp only [hbe, beq_self_eq_true, if_true] at hce; rw [← hce]; exact hvs
    · simp only [beq_iff_eq, hbe, if_false] at hce; rw [← hce]; exact hwf c0 hc0
  · rw [if_neg h]
    intro c hc
    rcases List.mem_append.mp hc with hc1 | hc2
    · exact hwf c hc1
    · rcases List.mem_singleton.mp hc2 with rfl
      exact hvs

theorem getCol_mem {df : DataFrame} {m : String} {vs : List Value}
    (h : df.getCol m = some vs) : (m, vs) ∈ df.cols := by
  unfold DataFrame.getCol at h
  cases hf : df.cols.find? (fun c => c.1 == m) with
  | none => rw [hf] at h; cases h
  | some c =>
    rw [hf] at h
    cases h
    have hp := List.find?_some hf
    have hm : c ∈ df.cols := List.mem_of_find?_eq_some hf
    have : c = (m, c.2) := by
      cases c with
      | mk a b => simp only [Prod.mk.injEq, and_true]; exact eq_of_beq hp
    rw [← this]
    exact hm

theorem getCol_length {df : DataFrame} {m : String} {vs : List Value} {n : Nat}
    (hwf : df.WF n) (h : df.getCol m = some vs) : vs.length = n :=
  hwf (m, vs) (getCol_mem h)

theorem parseAll_ok_length {parse : Value → Option Timestamp} :
    ∀ {vs : List Value} {ts : List Timestamp},
      parseAll parse vs = .ok ts → ts.length = vs.length := by
  intro vs
  induction vs with
  | nil => intro ts h; cases h; rfl
  | cons v vs ih =>
    intro ts h
    unfold parseAll at h
    cases hp : parse v with
    | none => rw [hp] at h; cases h
    | some t =>
      rw [hp] at h
      cases hr : parseAll parse vs with
      | error e => rw [hr] at h; cases h
      | ok ts0 =>
        rw [hr] at h
        cases h
        simp [ih hr]

theorem parseAll_error_of_mem {parse : Value → Option Timestamp} {v : Value}
    (hv : parse v = none) :
    ∀ {vs : List Value}, v ∈ vs →
      parseAll parse vs = .error .timestampParseError := by
  intro vs
  induction vs with
  | nil => intro h; cases h
  | cons w vs ih =>
    intro h
    unfold parseAll
    cases hw : parse w with
    | none => rfl
    | some t =>
      have hvvs : v ∈ vs := by
        rcases List.mem_cons.mp h with he | hm
        · rw [he] at hv; rw [hv] at hw; cases hw
        · exact hm
      rw [ih hvvs]

theorem length_filter_not_mem :
    ∀ (ls l : List String), l.Nodup → ls.Nodup → (∀ x ∈ ls, x ∈ l) →
      (l.filter (fun m => !(ls.contains m))).length = l.length - ls.length := by
  intro ls
  induction ls with
  | nil => intro l _ _ _; simp
  | cons a ls ih =>
    intro l hl hs hsub
    have hred : l.filter (fun m => !((a :: ls).contains m))
        = (l.filter (fun m => !(m == a))).filter (fun m => !(ls.contains m)) := by
      rw [List.filter_filter]
      refine List.filter_congr (fun m _ => ?_)
      simp only [List.contains_cons, Bool.not_or, Bool.and_comm]
    have hanodup : a ∉ ls := (List.nodup_cons.mp hs).1
    have hlsnodup : ls.Nodup := (List.nodup_cons.mp hs).2
    have hl' : (l.filter (fun m => !(m == a))).Nodup := hl.filter _
    have hsub' : ∀ x ∈ ls, x ∈ l.filter (fun m => !(m == a)) := by
      intro x hx
      refine List.mem_filter.mpr ⟨hsub x (List.mem_cons_of_mem a hx), ?_⟩
      simp only [Bool.not_eq_eq_eq_not, Bool.not_true, beq_eq_false_iff_ne]
      intro he
      exact hanodup (he ▸ hx)
    have hlen1 : (l.filter (fun m => !(m == a))).length = l.length - 1 := by
      have hmem : a ∈ l := hsub a (List.mem_cons_self a ls)
      have herase : l.erase a = l.filter (fun m => !(m == a)) := by
        rw [hl.erase_eq_filter]
        refine List.filter_congr (fun m _ => ?_)
        simp [bne]
      rw [← herase]
      exact List.length_erase_of_mem hmem
    rw [hred, ih _ hl' hlsnodup hsub', hlen1, List.length_cons, Nat.sub_sub,
      Nat.add_comm]

theorem setCols_WF {n : Nat} :
    ∀ (ps : List (String × List Value)) (d : DataFrame), d.WF n →
      (∀ p ∈ ps, p.2.length = n) → (setCols d ps).WF n := by
  intro ps
  induction ps with
  | nil => intro d hd _; exact hd
  | cons p ps ih =>
    intro d hd hp
    cases p with
    | mk m vs =>
      exact ih _ (setCol_WF m hd (hp (m, vs) (List.mem_cons_self _ _)))
        (fun q hq => hp q (List.mem_cons_of_mem _ hq))

theorem setCols_names_fresh :
    ∀ (ps : List (String × List Value)) (d : DataFrame),
      (∀ p ∈ ps, p.1 ∉ d.names) → (ps.map Prod.fst).Nodup →
      (setCols d ps).names = d.names ++ ps.map Prod.fst := by
  intro ps
  induction ps with
  | nil => intro d _ _; simp [setCols]
  | cons p ps ih =>
    intro d hfresh hnd
    cases p with
    | mk m vs =>
      have hm : m ∉ d.names := hfresh (m, vs) (List.mem_cons_self _ _)
      have hrest : ∀ p ∈ ps, p.1 ∉ (d.setCol m vs).names := by
        intro q hq
        rw [setCol_names_not_mem hm]
        intro hmem
        rcases List.mem_append.mp hmem with h1 | h2
        · exact hfresh q (List.mem_cons_of_mem _ hq) h1
        · rcases List.mem_singleton.mp h2 with he
          have : q.1 ∈ ps.map Prod.fst := List.mem_map_of_mem Prod.fst hq
          rw [he] at this
          exact (List.nodup_cons.mp (by simpa using hnd)).1 this
      have := ih (d.setCol m vs) hrest (by simpa using (List.nodup_cons.mp (by simpa using hnd)).2)
      rw [setCols, this, setCol_names_not_mem hm]
      simp

theorem derivedCols_map_fst (ts : List Timestamp) :
    (derivedCols ts).map Prod.fst = derivedNames := rfl

theorem addTimeFeatures_WF {d : DataFrame} {n : Nat} {ts : List Timestamp}
    (hwf : d.WF n) (hts : ts.length = n) : (addTimeFeatures d ts).WF n := by
  unfold addTimeFeatures
  refine setCols_WF _ _ (setCol_WF _ hwf (by simp [hts])) ?_
  intro p hp
  unfold derivedCols at hp
  simp only [List.mem_cons, List.not_mem_nil, or_false] at hp
  rcases hp with h | h | h | h | h | h | h | h <;> rw [h] <;> simp [hts]

theorem addTimeFeatures_names {d : DataFrame} {ts : List Timestamp}
    (ht : "时间" ∈ d.names) (hd : ∀ m ∈ derivedNames, m ∉ d.names) :
    (addTimeFeatures d ts).names = d.names ++ derivedNames := by
  unfold addTimeFeatures
  rw [setCols_names_fresh _ _ ?fresh ?nd, setCol_names_mem ht, derivedCols_map_fst]
  case fresh =>
    intro p hp
    rw [setCol_names_mem ht]
    have : p.1 ∈ (derivedCols ts).map Prod.fst := List.mem_map_of_mem Prod.fst hp
    rw [derivedCols_map_fst] at this
    exact hd p.1 this
  case nd =>
    rw [derivedCols_map_fst]
    decide

theorem time_feature_core_ok_decomp {parse : Value → Option Timestamp}
    {data : DataFrame} {d11 : DataFrame}
    (h : time_feature_core parse data = .ok d11) :
    ∃ d1 tvals ts,
      data.dropCols ["序号"] = .ok d1 ∧
      d1.getCol "时间" = some tvals ∧
      parseAll parse tvals = .ok ts ∧
      (addTimeFeatures d1 ts).dropCols ["时间"] = .ok d11 := by
  unfold time_feature_core at h
  split at h
  · cases h
  · rename_i d1 h1
    split at h
    · cases h
    · rename_i tvals h2
      split at h
      · cases h
      · rename_i ts h3
        exact ⟨d1, tvals, ts, h1, h2, h3, h⟩

theorem time_feature_ok_decomp {parse : Value → Option Timestamp}
    {data : DataFrame} {pls : Option (List String)} {out : DataFrame}
    (h : time_feature parse data pls = .ok out) :
    ∃ d11, time_feature_core parse data = .ok d11 ∧
      ((pls.getD []).isEmpty = true ∧ out = d11 ∨
        ∃ ls, pls = some ls ∧ ls.isEmpty = false ∧ d11.dropCols ls = .ok out) := by
  unfold time_feature at h
  split at h
  · cases h
  · rename_i d11 hcore
    refine ⟨d11, hcore, ?_⟩
    split at h
    · cases h
      exact .inl ⟨rfl, rfl⟩
    · rename_i ls
      by_cases he : ls.isEmpty = true
      · rw [if_pos he] at h
        cases h
        exact .inl ⟨by simpa using he, rfl⟩
      · rw [if_neg he] at h
        exact .inr ⟨ls, rfl, by simpa using he, h⟩

/-- When the label-independent prefix fails, `time_feature` fails with the
same error, whatever the `pred_labels` argument. -/
theorem time_feature_error_of_core {parse : Value → Option Timestamp}
    {data : DataFrame} {e : TFError} (pls : Option (List String))
    (h : time_feature_core parse data = .error e) :
    time_feature parse data pls = .error e := by
  unfold time_feature
  simp only [h]

/-! ## Helper lemmas: splitter -/

theorem getD_cons_eraseIdx_perm {α : Type} :
    ∀ (xs : List α) (i : Nat) (d : α), i < xs.length →
      (xs.getD i d :: xs.eraseIdx i).Perm xs
  | [], i, d, h => absurd h (by simp)
  | x :: xs, 0, d, _ => by simp [List.eraseIdx]
  | x :: xs, i + 1, d, h => by
    have hi : i < xs.length := by simpa using h
    have ih := getD_cons_eraseIdx_perm xs i d hi
    simp only [List.getD_cons_succ, List.eraseIdx_cons_succ]
    exact (List.Perm.swap x (xs.getD i d) (xs.eraseIdx i)).trans (ih.cons x)

theorem shuffleGo_perm {α : Type} :
    ∀ (fuel s : Nat) (xs : List α), (shuffleGo fuel s xs).Perm xs
  | 0, _, xs => List.Perm.refl xs
  | _ + 1, _, [] => List.Perm.refl []
  | fuel + 1, s, x :: xs => by
    have hlen : s % (x :: xs).length < (x :: xs).length :=
      Nat.mod_lt _ (by simp)
    have h1 := getD_cons_eraseIdx_perm (x :: xs) (s % (x :: xs).length) x hlen
    have h2 := shuffleGo_perm fuel (lcgStep s)
      ((x :: xs).eraseIdx (s % (x :: xs).length))
    exact (h2.cons _).trans h1

theorem shuffle_perm {α : Type} (seed : Nat) (xs : List α) :
    (shuffle seed xs).Perm xs :=
  shuffleGo_perm xs.length seed xs

theorem round_fifth_le (n : Nat) : (round ((n : ℚ) * (1/5))).toNat ≤ n := by
  have h0 : (0 : ℚ) ≤ (n : ℚ) := by positivity
  have h1 : ((n : ℚ) * (1/5)) ≤ (n : ℚ) := by nlinarith
  have h2 : round ((n : ℚ) * (1/5)) ≤ round ((n : ℚ)) := by
    rw [round_eq, round_eq]
    exact Int.floor_le_floor (by linarith)
  rw [round_natCast] at h2
  calc (round ((n : ℚ) * (1/5))).toNat ≤ ((n : ℤ)).toNat := Int.toNat_le_toNat h2
    _ = n := Int.toNat_natCast n

/-! ## Helper lemmas: best-iteration selection and the loop -/

theorem bestIterGo_spec (f : Nat → ℚ) :
    ∀ (ks : List Nat) (b : Nat),
      (bestIterGo f ks b = b ∨ bestIterGo f ks b ∈ ks)
      ∧ f (bestIterGo f ks b) ≤ f b
      ∧ ∀ k ∈ ks, f (bestIterGo f ks b) ≤ f k := by
  intro ks
  induction ks with
  | nil => intro b; exact ⟨.inl rfl, le_refl _, by simp⟩
  | cons k ks ih =>
    intro b
    simp only [bestIterGo]
    by_cases hlt : f k < f b
    · rw [if_pos hlt]
      rcases ih k with ⟨hmem, hle, hall⟩
      refine ⟨?_, le_trans hle (le_of_lt hlt), ?_⟩
      · rcases hmem with h | h
        · exact .inr (by rw [h]; exact List.mem_cons_self k ks)
        · exact .inr (List.mem_cons_of_mem _ h)
      · intro k0 hk0
        rcases List.mem_cons.mp hk0 with rfl | hmem0
        · exact hle
        · exact hall k0 hmem0
    · rw [if_neg hlt]
      rcases ih b with ⟨hmem, hle, hall⟩
      refine ⟨?_, hle, ?_⟩
      · rcases hmem with h | h
        · exact .inl h
        · exact .inr (List.mem_cons_of_mem _ h)
      · intro k0 hk0
        rcases List.mem_cons.mp hk0 with rfl | hmem0
        · exact le_trans hle (not_lt.mp hlt)
        · exact hall k0 hmem0

theorem mem_range_map_succ {n j : Nat} :
    j ∈ (List.range n).map (fun i => i + 1) ↔ 1 ≤ j ∧ j ≤ n := by
  simp only [List.mem_map, List.mem_range]
  constructor
  · rintro ⟨i, hi, rfl⟩
    omega
  · rintro ⟨h1, h2⟩
    exact ⟨j - 1, by omega, by omega⟩

theorem bestIter_bounds (f : Nat → ℚ) {n : Nat} (hn : 1 ≤ n) :
    1 ≤ bestIter f n ∧ bestIter f n ≤ n := by
  unfold bestIter
  rcases (bestIterGo_spec f ((List.range n).map (fun i => i + 1)) 1).1 with h | h
  · rw [h]; exact ⟨le_refl 1, hn⟩
  · exact mem_range_map_succ.mp h

theorem bestIter_min (f : Nat → ℚ) {n : Nat} (j : Nat) (h1 : 1 ≤ j)
    (h2 : j ≤ n) : f (bestIter f n) ≤ f j := by
  unfold bestIter
  exact (bestIterGo_spec f _ 1).2.2 j (mem_range_map_succ.mpr ⟨h1, h2⟩)

theorem labelStep_ok_state {parse : Value → Option Timestamp} {ν : Value → ℚ}
    {boostFam : String → Nat → List ℚ → ℚ} {pls : List String}
    {testF : List (List ℚ)} {st : PipelineState} {lab : String}
    {st1 : PipelineState} {r : LabelRun}
    (h : labelStep parse ν boostFam pls testF st lab = .ok (st1, r)) :
    st1.train_set = st.train_set ∧ st1.valid_set = st.valid_set
    ∧ r.used_train = st.train_set ∧ r.used_valid = st.valid_set := by
  unfold labelStep at h
  split at h
  · cases h
  · split at h
    · cases h
    · cases h
      exact ⟨rfl, rfl, rfl, rfl⟩

theorem runLoop_ok_invariant (parse : Value → Option Timestamp) (ν : Value → ℚ)
    (boostFam : String → Nat → List ℚ → ℚ) (pls : List String)
    (testF : List (List ℚ)) :
    ∀ (labs : List String) (st st' : PipelineState) (runs : List LabelRun),
      runLoop parse ν boostFam pls testF st labs = .ok (st', runs) →
      st'.train_set = st.train_set ∧ st'.valid_set = st.valid_set
      ∧ runs.length = labs.length
      ∧ ∀ r ∈ runs, r.used_train = st.train_set ∧ r.used_valid = st.valid_set := by
  intro labs
  induction labs with
  | nil =>
    intro st st' runs h
    have h' : (Except.ok (st, ([] : List LabelRun)) : Except TFError _)
        = .ok (st', runs) := h
    cases h'
    exact ⟨rfl, rfl, rfl, by simp⟩
  | cons lab labs ih =>
    intro st st' runs h
    unfold runLoop at h
    split at h
    · cases h
    · rename_i st1 r hstep
      split at h
      · cases h
      · rename_i st2 rs hloop
        cases h
        obtain ⟨e1, e2, e3, e4⟩ := labelStep_ok_state hstep
        obtain ⟨f1, f2, f3, f4⟩ := ih _ _ _ hloop
        refine ⟨f1.trans e1, f2.trans e2, by simp [f3], ?_⟩
        intro q hq
        rcases List.mem_cons.mp hq with rfl | hmem
        · exact ⟨e3, e4⟩
        · obtain ⟨g1, g2⟩ := f4 q hmem
          exact ⟨g1.trans e1, g2.trans e2⟩

/-! ## Claim theorems -/

/-- C1: for every dataset of N rows, `split` with holdout fraction 0.2
succeeds and yields a validation partition of exactly `round(0.2*N)` rows
and a training partition of the remaining `N - round(0.2*N)` rows, and
validation and training together are a permutation of the original rows —
disjoint partitions jointly covering every row exactly once. -/
theorem split_partition_sizes_perm {α : Type} (rows : List α) (seed : Nat) :
    ∃ tr va, split rows (1/5) seed = .ok (tr, va)
      ∧ va.length = (round ((rows.length : ℚ) * (1/5))).toNat
      ∧ tr.length = rows.length - (round ((rows.length : ℚ) * (1/5))).toNat
      ∧ (va ++ tr).Perm rows := by
  have hfrac : (0 : ℚ) < 1/5 ∧ (1/5 : ℚ) < 1 := by norm_num
  have hperm := shuffle_perm seed rows
  have hlen : (shuffle seed rows).length = rows.length := hperm.length_eq
  have hle : (round ((rows.length : ℚ) * (1/5))).toNat ≤ rows.length :=
    round_fifth_le rows.length
  refine ⟨(shuffle seed rows).drop ((round ((rows.length : ℚ) * (1/5))).toNat),
          (shuffle seed rows).take ((round ((rows.length : ℚ) * (1/5))).toNat),
          ?_, ?_, ?_, ?_⟩
  · unfold split
    rw [if_pos hfrac]
  · rw [List.length_take, hlen]
    exact Nat.min_eq_left hle
  · rw [List.length_drop, hlen]
  · rw [List.take_append_drop]
    exact hperm

/-- C2: the splitter is deterministic — its output is a function of the
dataset, the holdout fraction and the seed alone, so two invocations with
equal inputs and equal seeds return identical train/validation
partitions. -/
theorem split_deterministic {α : Type} (d₁ d₂ : List α) (f₁ f₂ : ℚ)
    (s₁ s₂ : Nat) (hd : d₁ = d₂) (hf : f₁ = f₂) (hs : s₁ = s₂) :
    split d₁ f₁ s₁ = split d₂ f₂ s₂ := by
  rw [hd, hf, hs]

/-- C2 witness: two invocations on the same three-row dataset with the
same seed coincide. -/
theorem split_deterministic_witness :
    split ([10, 20, 30] : List Nat) (1/5) 7 = split [10, 20, 30] (1/5) 7 :=
  split_deterministic [10, 20, 30] [10, 20, 30] (1/5) (1/5) 7 7 rfl rfl rfl

/-- C3: the derived weekend flag (`dayofweek // 6`) is 1 exactly on
Sunday (day-of-week 6, with 0 = Monday) and 0 on every other day — in
particular on Saturday (day-of-week 5). -/
theorem is_weekend_iff_sunday (t : Timestamp) :
    (t.is_weekend = 1 ↔ t.dayofweek = 6)
    ∧ (t.dayofweek ≠ 6 → t.is_weekend = 0) := by
  have h7 : t.dayofweek < 7 := by
    unfold Timestamp.dayofweek
    have h1 : (t.days + 3) % 7 < 7 := Int.emod_lt_of_pos _ (by norm_num)
    have h2 : 0 ≤ (t.days + 3) % 7 := Int.emod_nonneg _ (by norm_num)
    omega
  unfold Timestamp.is_weekend
  omega

/-- C3 witness: 1970-01-03 (two days after the epoch) was a Saturday;
its day-of-week is 5 and its weekend flag is 0. -/
theorem is_weekend_iff_sunday_witness :
    Timestamp.dayofweek ⟨2, 0, 0⟩ = 5 ∧ Timestamp.is_weekend ⟨2, 0, 0⟩ = 0 :=
  ⟨by decide, (is_weekend_iff_sunday ⟨2, 0, 0⟩).2 (by decide)⟩

/-- C4: each per-label run trains with the fixed ceiling of 200 boosting
rounds, and the single best iteration — the round among 1..200 whose
validation MAE is lowest — is the iteration evaluated in both the
validation-set and the test-set prediction calls. -/
theorem trainAndPredict_uses_best_iteration (boost : Nat → List ℚ → ℚ)
    (params : LgbParams) (train_data : List (List ℚ) × List ℚ)
    (vF : List (List ℚ)) (vL : List ℚ) (tF : List (List ℚ)) :
    trainAndPredict boost params train_data vF vL tF
        = (vF.map (boost (bestIter (fun j => mae (vF.map (boost j)) vL) 200)),
           tF.map (boost (bestIter (fun j => mae (vF.map (boost j)) vL) 200)),
           bestIter (fun j => mae (vF.map (boost j)) vL) 200)
      ∧ 1 ≤ bestIter (fun j => mae (vF.map (boost j)) vL) 200
      ∧ bestIter (fun j => mae (vF.map (boost j)) vL) 200 ≤ 200
      ∧ ∀ j, 1 ≤ j → j ≤ 200 →
          mae (vF.map (boost (bestIter (fun j => mae (vF.map (boost j)) vL) 200))) vL
            ≤ mae (vF.map (boost j)) vL := by
  refine ⟨rfl, ?_, ?_, ?_⟩
  · exact (bestIter_bounds _ (by norm_num)).1
  · exact (bestIter_bounds _ (by norm_num)).2
  · intro j h1 h2
    exact bestIter_min (fun j => mae (vF.map (boost j)) vL) j h1 h2

/-- C4 witness: with a concrete ensemble family and a one-row validation
set, the selected iteration's validation MAE is no larger than round 7's. -/
theorem trainAndPredict_uses_best_iteration_witness :
    1 ≤ 7 ∧ 7 ≤ 200 ∧
    mae ([[0]].map (boostW (bestIter (fun j => mae ([[0]].map (boostW j)) [0]) 200))) [0]
      ≤ mae ([[0]].map (boostW 7)) [0] :=
  ⟨by decide, by decide,
   (trainAndPredict_uses_best_iteration boostW lgb_paramsV2 ([], [])
     [[0]] [0] [[1]]).2.2.2 7 (by decide) (by decide)⟩

/-- Auxiliary for the C5 witness: on the concrete two-row dataset the
split puts zero rows (round(2/5) = 0) into validation and the shuffled
pair into training. -/
theorem split_rowsW_eq : split rowsW (1/5) 3 = .ok (shuffle 3 rowsW, []) := by
  unfold split
  rw [if_pos (show (0 : ℚ) < 1/5 ∧ (1/5 : ℚ) < 1 by norm_num)]
  have hl : rowsW.length = 2 := rfl
  have hr : round ((rowsW.length : ℚ) * (1/5)) = 0 := by
    rw [hl]
    norm_num [round_eq]
  simp only [hr, Int.toNat_zero, List.drop_zero, List.take_zero]

/-- Auxiliary for the C5 witness: the concrete pipeline run completes —
both partitions of `rowsW` produce parseable frames, so no stage fails. -/
theorem runPipelineW_ok :
    ∃ p, runPipeline mkFrameW parseW νW boostFamW rowsW testFW ["lab"] 3
      = .ok p := by
  unfold runPipeline
  rw [split_rowsW_eq]
  exact ⟨_, rfl⟩

/-- C5: the pipeline calls the splitter exactly once, before the
per-label loop; whenever a run completes, the final state still carries
the two partitions of that single split unchanged, exactly one record was
produced per label, and every label iteration consumed exactly those
partitions. -/
theorem pipeline_single_split_shared_partitions {α : Type}
    (mkFrame : List α → DataFrame) (parse : Value → Option Timestamp)
    (ν : Value → ℚ) (boostFam : String → Nat → List ℚ → ℚ)
    (train_dataset : List α) (test_features : List (List ℚ))
    (pred_labels : List String) (seed : Nat)
    (train_rows valid_rows : List α) (st : PipelineState)
    (runs : List LabelRun)
    (hsplit : split train_dataset (1/5) seed = .ok (train_rows, valid_rows))
    (hok : runPipeline mkFrame parse ν boostFam train_dataset test_features
        pred_labels seed = .ok (st, runs)) :
    st.train_set = mkFrame train_rows
    ∧ st.valid_set = mkFrame valid_rows
    ∧ runs.length = pred_labels.length
    ∧ ∀ r ∈ runs, r.used_train = mkFrame train_rows
        ∧ r.used_valid = mkFrame valid_rows := by
  unfold runPipeline at hok
  simp only [hsplit] at hok
  split at hok
  · cases hok
  · rename_i p hloop
    cases hok
    exact runLoop_ok_invariant parse ν boostFam pred_labels test_features
      pred_labels _ _ _ hloop

/-- C5 witness: the concrete one-label pipeline run completes, and its
final state carries exactly the two partitions of the single split —
the shuffled pair as training and the empty validation set. -/
theorem pipeline_single_split_shared_partitions_witness :
    ((runPipeline mkFrameW parseW νW boostFamW rowsW testFW ["lab"] 3
        ).toOption.getD dW).1.train_set = mkFrameW (shuffle 3 rowsW)
    ∧ ((runPipeline mkFrameW parseW νW boostFamW rowsW testFW ["lab"] 3
        ).toOption.getD dW).1.valid_set = mkFrameW []
    ∧ ((runPipeline mkFrameW parseW νW boostFamW rowsW testFW ["lab"] 3
        ).toOption.getD dW).2.length = ["lab"].length := by
  obtain ⟨p, hp⟩ := runPipelineW_ok
  have hok : runPipeline mkFrameW parseW νW boostFamW rowsW testFW ["lab"] 3
      = .ok (((runPipeline mkFrameW parseW νW boostFamW rowsW testFW
                ["lab"] 3).toOption.getD dW).1,
             ((runPipeline mkFrameW parseW νW boostFamW rowsW testFW
                ["lab"] 3).toOption.getD dW).2) := by
    rw [hp]
    rfl
  have hres := pipeline_single_split_shared_partitions mkFrameW parseW νW
    boostFamW rowsW testFW ["lab"] 3 (shuffle 3 rowsW) [] _ _
    split_rowsW_eq hok
  exact ⟨hres.1, hres.2.1, hres.2.2.1⟩

/-- C9: both observed baseline configurations fix the LightGBM
hyperparameters the spec lists: the per-leaf minimum (`min_child_weight`)
is 5, 32 leaves, L2 leaf-weight regularization 10, 80% feature
subsampling, 80% row subsampling every 4 iterations, and the two variants
differ only in learning rate (0.03 versus 0.05). -/
theorem lgb_params_fixed_values :
    lgb_paramsV2.min_child_weight = 5
    ∧ lgb_paramsV1.min_child_weight = 5
    ∧ lgb_paramsV2.num_leaves = 32
    ∧ lgb_paramsV1.num_leaves = 32
    ∧ lgb_paramsV2.lambda_l2 = 10
    ∧ lgb_paramsV1.lambda_l2 = 10
    ∧ lgb_paramsV2.feature_fraction = 0.8
    ∧ lgb_paramsV1.feature_fraction = 0.8
    ∧ lgb_paramsV2.bagging_fraction = 0.8
    ∧ lgb_paramsV1.bagging_fraction = 0.8
    ∧ lgb_paramsV2.bagging_freq = 4
    ∧ lgb_paramsV1.bagging_freq = 4
    ∧ lgb_paramsV2.learning_rate = 0.03
    ∧ lgb_paramsV1.learning_rate = 0.05 :=
  ⟨rfl, rfl, rfl, rfl, rfl, rfl, rfl, rfl, rfl, rfl, rfl, rfl, rfl, rfl⟩

/-- C10: passing an empty label list to the extractor is the same as
passing no label list at all — the source's truthiness test
`if pred_labels:` skips the dropping step in both cases, so the results
coincide on every input. -/
theorem time_feature_empty_labels_eq_none (parse : Value → Option Timestamp)
    (data : DataFrame) :
    time_feature parse data (some []) = time_feature parse data none := by
  unfold time_feature
  cases time_feature_core parse data with
  | error e => rfl
  | ok d11 => rfl

/-- C6: whenever the extractor succeeds, every column of its output has
exactly the row count of the input frame — no row is dropped or added. -/
theorem time_feature_preserves_rowcount (parse : Value → Option Timestamp)
    (data : DataFrame) (n : Nat) (pls : Option (List String))
    (out : DataFrame) (hwf : data.WF n)
    (heq : time_feature parse data pls = .ok out) : out.WF n := by
  obtain ⟨d11, hcore, h5⟩ := time_feature_ok_decomp heq
  obtain ⟨d1, tvals, ts, h1, h2, h3, h4⟩ := time_feature_core_ok_decomp hcore
  have hd1 : d1.WF n := dropCols_WF hwf h1
  have htv : tvals.length = n := getCol_length hd1 h2
  have hts : ts.length = n := (parseAll_ok_length h3).trans htv
  have hadd : (addTimeFeatures d1 ts).WF n := addTimeFeatures_WF hd1 hts
  have hd11 : d11.WF n := dropCols_WF hadd h4
  rcases h5 with ⟨_, rfl⟩ | ⟨ls, _, _, hdrop⟩
  · exact hd11
  · exact dropCols_WF hd11 hdrop

/-- C6 witness: on a concrete two-row frame the extractor succeeds and
every output column still has two values. -/
theorem time_feature_preserves_rowcount_witness :
    dfW.WF 2
    ∧ ((time_feature parseW dfW (some ["lab"])).toOption.getD ⟨[]⟩).WF 2 :=
  ⟨by decide,
   time_feature_preserves_rowcount parseW dfW 2 (some ["lab"])
     ((time_feature parseW dfW (some ["lab"])).toOption.getD ⟨[]⟩)
     (by decide) (by rfl)⟩

/-- C7: whenever the extractor succeeds, its output has the input's
column count minus 2 (the `序号` identifier and `时间` timestamp columns)
minus the number of stripped label columns (zero when no label list is
given, or an empty one) plus the 8 derived calendar features. -/
theorem time_feature_column_count (parse : Value → Option Timestamp)
    (data : DataFrame) (pls : Option (List String)) (out : DataFrame)
    (hnd : data.names.Nodup)
    (hid : "序号" ∈ data.names)
    (htime : "时间" ∈ data.names)
    (hder : ∀ m ∈ derivedNames, m ∉ data.names)
    (hlsnd : (pls.getD []).Nodup)
    (hls : ∀ l ∈ pls.getD [], l ∈ data.names ∧ l ≠ "序号" ∧ l ≠ "时间")
    (heq : time_feature parse data pls = .ok out) :
    out.ncols = data.ncols - 2 - (pls.getD []).length + 8 := by
  obtain ⟨d11, hcore, h5⟩ := time_feature_ok_decomp heq
  obtain ⟨d1, tvals, ts, h1, h2, h3, h4⟩ := time_feature_core_ok_decomp hcore
  have hncols : ∀ df : DataFrame, df.ncols = df.names.length := fun df =>
    (List.length_map _ _).symm
  have h8 : derivedNames.length = 8 := rfl
  have e1 : d1.names
      = data.names.filter (fun m => !((["序号"] : List String).contains m)) :=
    dropCols_ok_names h1
  have hnd1 : d1.names.Nodup := by rw [e1]; exact hnd.filter _
  have htime1 : "时间" ∈ d1.names := by
    rw [e1]
    exact List.mem_filter.mpr ⟨htime, by decide⟩
  have hder1 : ∀ m ∈ derivedNames, m ∉ d1.names := by
    intro m hm hmem
    rw [e1] at hmem
    exact hder m hm (List.mem_of_mem_filter hmem)
  have hder8 : derivedNames.filter
      (fun m => !((["时间"] : List String).contains m)) = derivedNames := by
    decide
  have e3 : d11.names
      = d1.names.filter (fun m => !((["时间"] : List String).contains m))
        ++ derivedNames := by
    rw [dropCols_ok_names h4, addTimeFeatures_names htime1 hder1,
      List.filter_append, hder8]
  have l1 : d1.names.length = data.names.length - 1 := by
    rw [e1]
    refine length_filter_not_mem ["序号"] data.names hnd (by decide) ?_
    intro x hx
    rcases List.mem_singleton.mp hx with rfl
    exact hid
  have hl2sub : ∀ x ∈ pls.getD [],
      x ∈ d1.names.filter (fun m => !((["时间"] : List String).contains m)) := by
    intro x hx
    obtain ⟨hxd, hxid, hxtime⟩ := hls x hx
    refine List.mem_filter.mpr ⟨?_, ?_⟩
    · rw [e1]
      refine List.mem_filter.mpr ⟨hxd, ?_⟩
      simp only [List.contains_cons, List.contains_nil, Bool.or_false,
        Bool.not_eq_eq_eq_not, Bool.not_true, beq_eq_false_iff_ne]
      exact hxid
    · simp only [List.contains_cons, List.contains_nil, Bool.or_false,
        Bool.not_eq_eq_eq_not, Bool.not_true, beq_eq_false_iff_ne]
      exact hxtime
  have l2 : (d1.names.filter
      (fun m => !((["时间"] : List String).contains m))).length
      = data.names.length - 1 - 1 := by
    rw [length_filter_not_mem ["时间"] d1.names hnd1 (by decide) ?_, l1]
    · rfl
    · intro x hx
      rcases List.mem_singleton.mp hx with rfl
      exact htime1
  have hnodl2 : (d1.names.filter
      (fun m => !((["时间"] : List String).contains m))).Nodup := hnd1.filter _
  rcases h5 with ⟨hemp, rfl⟩ | ⟨ls, hpls, hne, hdrop⟩
  · have hnil : pls.getD [] = [] := by
      cases hl : pls.getD [] with
      | nil => rfl
      | cons a as => rw [hl] at hemp; cases hemp
    rw [hncols, hncols, e3, List.length_append, l2, h8, hnil]
    simp only [List.length_nil]
    omega
  · have hgd : pls.getD [] = ls := by rw [hpls]; rfl
    have e4 : out.names = d11.names.filter (fun m => !(ls.contains m)) :=
      dropCols_ok_names hdrop
    have hlssub : ∀ x ∈ ls, x ∈ d1.names.filter
        (fun m => !((["时间"] : List String).contains m)) := by
      intro x hx
      exact hl2sub x (by rw [hgd]; exact hx)
    have hsub11 : ∀ x ∈ ls, x ∈ d11.names := by
      intro x hx
      rw [e3]
      exact List.mem_append.mpr (.inl (hlssub x hx))
    have hnod11 : d11.names.Nodup := by
      rw [e3]
      refine List.Nodup.append hnodl2 (by decide) ?_
      intro x hx1 hx2
      exact hder1 x hx2 (List.mem_of_mem_filter hx1)
    have hlsnd' : ls.Nodup := by rw [← hgd]; exact hlsnd
    have l4 : out.names.length = d11.names.length - ls.length := by
      rw [e4]
      exact length_filter_not_mem ls d11.names hnod11 hlsnd' hsub11
    have lls : ls.length ≤ (d1.names.filter
        (fun m => !((["时间"] : List String).contains m))).length :=
      (List.subperm_of_subset hlsnd' (fun x hx => hlssub x hx)).length_le
    have lls' : ls.length ≤ data.names.length - 1 - 1 := by rw [← l2]; exact lls
    rw [hncols, hncols, l4, e3, List.length_append, l2, h8, hgd]
    omega

/-- C7 witness: on the concrete four-column frame, stripping one label
leaves 4 - 2 - 1 + 8 = 9 columns. -/
theorem time_feature_column_count_witness :
    dfW.names.Nodup
    ∧ ((time_feature parseW dfW (some ["lab"])).toOption.getD ⟨[]⟩).ncols
        = dfW.ncols - 2 - ((some ["lab"] : Option (List String)).getD []).length
            + 8 :=
  ⟨by decide,
   time_feature_column_count parseW dfW (some ["lab"])
     ((time_feature parseW dfW (some ["lab"])).toOption.getD ⟨[]⟩)
     (by decide) (by decide) (by decide) (by decide) (by decide) (by decide)
     (by rfl)⟩

/-- C8: if any value of the timestamp column is unparseable, the whole
extractor call fails with the timestamp-parse error — it returns no
frame, for any `pred_labels` argument, rather than dropping the offending
row. -/
theorem time_feature_raises_on_unparseable (parse : Value → Option Timestamp)
    (data : DataFrame) (pls : Option (List String)) (tvals : List Value)
    (v : Value)
    (hid : "序号" ∈ data.names)
    (ht : data.getCol "时间" = some tvals)
    (hv : v ∈ tvals) (hpv : parse v = none) :
    time_feature parse data pls = .error .timestampParseError := by
  refine time_feature_error_of_core pls ?_
  have hcol : data.hasCol "序号" = true := (hasCol_iff_mem _ _).mpr hid
  have hdropeq : data.dropCols ["序号"]
      = .ok ⟨data.cols.filter
          (fun c => !((["序号"] : List String).contains c.1))⟩ := by
    unfold DataFrame.dropCols
    have hfind : (["序号"] : List String).find?
        (fun n => !(data.hasCol n)) = none := by
      rw [List.find?_cons_of_neg, List.find?_nil]
      simp [hcol]
    rw [hfind]
  have hget : (DataFrame.mk (data.cols.filter
      (fun c => !((["序号"] : List String).contains c.1)))).getCol "时间"
      = some tvals := by
    unfold DataFrame.getCol at ht ⊢
    show ((data.cols.filter
      (fun c => !((["序号"] : List String).contains c.1))).find?
        (fun c => c.1 == "时间")).map Prod.snd = some tvals
    rw [find?_filter_eq (fun c : String × List Value => c.1 == "时间")
      (fun c => !((["序号"] : List String).contains c.1)) ?_ data.cols]
    · exact ht
    · intro x hx
      have hx' : x.1 = "时间" := eq_of_beq hx
      show (!((["序号"] : List String).contains x.1)) = true
      rw [hx']
      decide
  have hparse : parseAll parse tvals = .error .timestampParseError :=
    parseAll_error_of_mem hpv hv
  unfold time_feature_core
  simp only [hdropeq, hget, hparse]

/-- C8 witness: on the concrete frame whose second timestamp is the
unparseable `"bad"`, the extractor fails whole with the timestamp-parse
error. -/
theorem time_feature_raises_on_unparseable_witness :
    ("序号" ∈ dfBad.names)
    ∧ Value.str "bad" ∈ [Value.str "t1", Value.str "bad"]
    ∧ parseW (Value.str "bad") = none
    ∧ time_feature parseW dfBad (some ["lab"])
        = .error .timestampParseError :=
  ⟨by decide, by decide, rfl,
   time_feature_raises_on_unparseable parseW dfBad (some ["lab"])
     [Value.str "t1", Value.str "bad"] (Value.str "bad")
     (by decide) (by rfl) (by decide) rfl⟩
